import Mathlib

/-!
Verification of the order-book replication and metrics engine of the
binance-liquidity-monitor repository.

The definitions below are a shallow embedding of the JavaScript sources:

* OrderBookManager (orderBookManager.js, the revision used by
  websocketService.js): initializeOrderBook, applyUpdate, updateSide,
  getOrderBook, markOutOfSync and the futures soft-failure counter.
* LiquidityService (liquidityService.js): calculateSlippage.
* MetricsCalculator (metricsCalculator.js): saveTimeSeriesIfNeeded.

Prices and quantities are modelled as rationals; JavaScript numbers are
IEEE doubles, but every comparison the code performs (including the
1e-10 equality tolerance and the 50 percent deviation filter) is exact
arithmetic on the parsed values, so rationals are a faithful model on
non-NaN inputs.  NaN inputs are filtered out by the code before use and
are not representable here.  Update ids and timestamps are integers.
-/

namespace BLM

/-- A price level: (price, quantity), as parsed by parseFloat in the code. -/
abbrev Level := ℚ × ℚ

/-- The float comparison tolerance used by updateSide:
`Math.abs(p - price) < 1e-10`. -/
def eps : ℚ := 1 / 10 ^ 10

/-- `Math.abs(p - price) < 1e-10`, the level-lookup equality test. -/
def epsEq (p q : ℚ) : Bool := |p - q| < eps

/-- Which side of the book updateSide works on (the sideType argument). -/
inductive SideType where
  | bid
  | ask
deriving DecidableEq

/--
Stable descending insertion used to model
`side.sort((a, b) => b[0] - a[0])` for bids.  `Array.prototype.sort` is
stable (ES2019), and the output of a stable sort is uniquely determined
by the comparator, so any stable sorting algorithm is a faithful model.
-/
def insDesc (e : Level) : List Level → List Level
  | [] => [e]
  | x :: xs => if e.1 ≥ x.1 then e :: x :: xs else x :: insDesc e xs

/--
Stable ascending insertion used to model
`side.sort((a, b) => a[0] - b[0])` for asks.
-/
def insAsc (e : Level) : List Level → List Level
  | [] => [e]
  | x :: xs => if e.1 ≤ x.1 then e :: x :: xs else x :: insAsc e xs

/-- Stable descending sort (bids: highest price first). -/
def sortDesc (l : List Level) : List Level := l.foldr insDesc []

/-- Stable ascending sort (asks: lowest price first). -/
def sortAsc (l : List Level) : List Level := l.foldr insAsc []

/-- The sort updateSide performs after inserting a fresh level. -/
def sortSide : SideType → List Level → List Level
  | .bid, l => sortDesc l
  | .ask, l => sortAsc l

/-- `side.splice(index, 1)` at the first epsilon-match of `price`
(`side.findIndex(([p]) => Math.abs(p - price) < 1e-10)`); the identity
when no level matches. -/
def removeFirst (price : ℚ) : List Level → List Level
  | [] => []
  | x :: xs => if epsEq x.1 price then xs else x :: removeFirst price xs

/-- `side[index][1] = qty` at the first epsilon-match of `price`; the
stored price of the matched level is kept.  Identity when no match. -/
def setFirst (price qty : ℚ) : List Level → List Level
  | [] => []
  | x :: xs => if epsEq x.1 price then (x.1, qty) :: xs else x :: setFirst price qty xs

/-- Whether `findIndex` succeeds: some resident price epsilon-matches. -/
def containsEps (price : ℚ) (l : List Level) : Bool :=
  l.any fun x => epsEq x.1 price

/--
The price-sanity filter of updateSide: an entry passes unless the side
has a best price `p0` and `Math.abs(price - p0) / p0 > 0.50`.
(The code skips the check on an empty side.)
-/
def passesDeviation (side : List Level) (price : ℚ) : Bool :=
  match side with
  | [] => true
  | best :: _ => !(|price - best.1| / best.1 > 1 / 2)

/--
One iteration of the updateSide loop for the entry `e = (price, qty)`:
skip invalid entries (`price <= 0 || qty < 0`; `isNaN` is not
representable), skip entries failing the deviation filter, then
remove / set / insert-and-sort at the epsilon-matched level.
-/
def applyLevel (st : SideType) (side : List Level) (e : Level) : List Level :=
  if e.1 ≤ 0 ∨ e.2 < 0 then side
  else if ¬ passesDeviation side e.1 then side
  else if e.2 = 0 then removeFirst e.1 side
  else if containsEps e.1 side then setFirst e.1 e.2 side
  else sortSide st (side ++ [e])

/-- `updateSide(side, updates, sideType, symbol)`: the loop over the
update entries.  The side evolves as the loop runs (the code mutates
`side` in place), hence the left fold. -/
def updateSide (st : SideType) (side : List Level) (updates : List Level) : List Level :=
  updates.foldl (applyLevel st) side

/-- The per-key in-memory order book record kept in `this.orderBooks`. -/
structure OrderBook where
  bids : List Level
  asks : List Level
  lastUpdateId : Int
  needsResync : Bool
  timestamp : Int
  snapshotUpdateId : Int
  hasReceivedUpdate : Bool
deriving DecidableEq

/-- A WebSocket depth diff `{U, u, pu, b, a}`.  `pu = none` models an
absent (undefined) field, as on every spot diff. -/
structure DepthUpdate where
  U : Int
  u : Int
  pu : Option Int
  b : List Level
  a : List Level
deriving DecidableEq

/-- Market segment, the `type` argument (the code compares with the
string "futures"; everything else takes the spot branch). -/
inductive MarketType where
  | spot
  | futures
deriving DecidableEq

/--
Outcome of applyUpdate, naming the distinct return paths of the code
(the code itself returns a boolean, true exactly on `applied`):
* `applied` — the update was applied (return true);
* `ignored` — the early `needsResync` return;
* `stale` — the too-old return (spot `u <= L`, futures `u < L`);
* `gap` — the return after markOutOfSync (spot gap, futures third
  consecutive pu mismatch);
* `notReady` — the futures discard-without-resync returns (first event
  not covering the snapshot, or a pu mismatch below the threshold).
-/
inductive ApplyResult where
  | applied
  | ignored
  | stale
  | gap
  | notReady
deriving DecidableEq

/-- `const maxLevels = (symbol === 'BTCUSDT' || symbol === 'ETHUSDT') ? 500 : 300`. -/
def maxLevels (symbol : String) : Nat :=
  if symbol = "BTCUSDT" ∨ symbol = "ETHUSDT" then 500 else 300

/-- The post-apply truncation `if (side.length > maxLevels) side = side.slice(0, maxLevels)`. -/
def truncSide (symbol : String) (side : List Level) : List Level :=
  if side.length > maxLevels symbol then side.take (maxLevels symbol) else side

/--
The successful tail of applyUpdate: apply `b` to the bids and `a` to the
asks (each side only touched when the list is non-empty, mirroring
`update.b && update.b.length > 0`), advance `lastUpdateId` to `u`, stamp
the wall clock, set `hasReceivedUpdate`, and truncate both sides.
-/
def applyBody (symbol : String) (ob : OrderBook) (upd : DepthUpdate) (now : Int) : OrderBook :=
  let bids1 := if upd.b ≠ [] then updateSide .bid ob.bids upd.b else ob.bids
  let asks1 := if upd.a ≠ [] then updateSide .ask ob.asks upd.a else ob.asks
  { ob with
    bids := truncSide symbol bids1
    asks := truncSide symbol asks1
    lastUpdateId := upd.u
    timestamp := now
    hasReceivedUpdate := true }

/--
`applyUpdate(symbol, type, update)` for one key, with the per-key
futures soft-failure counter threaded explicitly
(`this.futuresFailureCount.get(key) || 0`; `delete` resets it to 0).
Returns (result, new order book, new counter).
-/
def applyUpdate (symbol : String) (type : MarketType) (ob : OrderBook) (failCount : Nat)
    (upd : DepthUpdate) (now : Int) : ApplyResult × OrderBook × Nat :=
  if ob.needsResync then (.ignored, ob, failCount)
  else
    match type with
    | .futures =>
      if upd.u < ob.lastUpdateId then (.stale, ob, failCount)
      else if ob.hasReceivedUpdate = false then
        if upd.U ≤ ob.lastUpdateId + 1 ∧ upd.u ≥ ob.lastUpdateId + 1 then
          (.applied, applyBody symbol ob upd now, 0)
        else (.notReady, ob, failCount)
      else
        match upd.pu with
        | some pu =>
          if pu ≠ ob.lastUpdateId then
            if failCount + 1 ≥ 3 then (.gap, { ob with needsResync := true }, 0)
            else (.notReady, ob, failCount + 1)
          else (.applied, applyBody symbol ob upd now, 0)
        | none => (.applied, applyBody symbol ob upd now, failCount)
    | .spot =>
      if upd.u ≤ ob.lastUpdateId then (.stale, ob, failCount)
      else if upd.U > ob.lastUpdateId + 1 then (.gap, { ob with needsResync := true }, failCount)
      else (.applied, applyBody symbol ob upd now, failCount)

/--
`getOrderBook(symbol, type)`: null when absent, when flagged for resync,
or when the replica is older than 120 seconds
(`(Date.now() - orderBook.timestamp) / 1000 > 120`).
-/
def getOrderBook (ob : Option OrderBook) (now : Int) : Option OrderBook :=
  match ob with
  | none => none
  | some b =>
    if b.needsResync then none
    else if ((now - b.timestamp : ℤ) : ℚ) / 1000 > 120 then none
    else some b

/--
Whether the tail of applyUpdate saves the update to Redis (lines
guarded by the zombie check): only when not flagged for resync and the
just-stamped replica is at most 120 seconds old at the second
`Date.now()` sample `now2`.
-/
def performsUpdateSave (ob : OrderBook) (now2 : Int) : Bool :=
  !ob.needsResync && !(((now2 - ob.timestamp : ℤ) : ℚ) / 1000 > 120)

/-!
### LiquidityService.calculateSlippage

The walk over one side of the book consuming quoted value.  `slipWalk`
threads the loop state (remainingAmount, totalCost, totalQuantity); an
entry is consumed only if it is valid (`price > 0`, `quantity > 0`; the
`orderValue === 0` check of the code is subsumed, since over the
rationals a product of positives is positive and NaN does not exist).
-/

/-- The loop of calculateSlippage; returns the final
(remainingAmount, totalCost, totalQuantity). -/
def slipWalk (remaining totalCost totalQty : ℚ) : List Level → ℚ × ℚ × ℚ
  | [] => (remaining, totalCost, totalQty)
  | (p, q) :: rest =>
    if 0 < p ∧ 0 < q then
      if remaining ≤ p * q then (0, totalCost + remaining, totalQty + remaining / p)
      else slipWalk (remaining - p * q) (totalCost + p * q) (totalQty + q) rest
    else slipWalk remaining totalCost totalQty rest

/--
`calculateSlippage(orders, usdtAmount)`: 999 for an empty side, 999 when
the walk cannot consume the whole notional, and otherwise
`((avgPrice - bestPrice) / bestPrice) * 100` where
`avgPrice = totalCost / totalQuantity` and `bestPrice = orders[0][0]`
(the first level, whether or not it was valid).
-/
def calculateSlippage (orders : List Level) (usdtAmount : ℚ) : ℚ :=
  match orders with
  | [] => 999
  | first :: _ =>
    let w := slipWalk usdtAmount 0 0 orders
    if 0 < w.1 then 999
    else ((w.2.1 / w.2.2 - first.1) / first.1) * 100

/-- Total quoted value (price times quantity) resting on a side. -/
def sumQuoted (orders : List Level) : ℚ :=
  (orders.map fun l => l.1 * l.2).sum

/-!
### MetricsCalculator.saveTimeSeriesIfNeeded

Per-key state: `none` when `this.lastSaveTime` has no entry for the key,
otherwise `some (core, advanced)`, the two last-save timestamps.  The
booleans `coreOk` and `advOk` say whether the corresponding Redis write
resolves or rejects; a rejection jumps to the catch block.  JavaScript
aliasing matters: when the key is already present, `lastSave` is the very
object stored in the map, so field assignments performed before a later
rejection persist; when the key is absent, the fresh object reaches the
map only through the final `set`, which a rejection skips.
-/

/-- Outcome of one saveTimeSeriesIfNeeded call: whether the core write
and the advanced write completed, and the state afterwards. -/
structure SaveOutcome where
  coreWritten : Bool
  advWritten : Bool
  state : Option (Int × Int)
deriving DecidableEq

/-- One call of saveTimeSeriesIfNeeded for one key. -/
def saveTimeSeriesIfNeeded (st : Option (Int × Int)) (now : Int)
    (coreInterval advInterval : Int) (coreOk advOk : Bool) : SaveOutcome :=
  let last := st.getD (0, 0)
  if now - last.1 ≥ coreInterval ∧ coreOk = false then
    { coreWritten := false, advWritten := false, state := st }
  else
    let c1 := if now - last.1 ≥ coreInterval then now else last.1
    if now - last.2 ≥ advInterval ∧ advOk = false then
      { coreWritten := decide (now - last.1 ≥ coreInterval), advWritten := false,
        state := if st.isSome then some (c1, last.2) else st }
    else
      { coreWritten := decide (now - last.1 ≥ coreInterval),
        advWritten := decide (now - last.2 ≥ advInterval),
        state := some (c1, if now - last.2 ≥ advInterval then now else last.2) }

/-!
### Concrete instances used by counterexamples and witnesses
-/

/-- A well-formed one-sided book about to receive a bid above the best
ask (C4 counterexample). -/
def c4ob : OrderBook :=
  { bids := [], asks := [(11, 1)], lastUpdateId := 100, needsResync := false,
    timestamp := 0, snapshotUpdateId := 100, hasReceivedUpdate := false }

/-- A valid spot continuation inserting a bid at price 12, above the
resting ask at 11 (C4 counterexample). -/
def c4upd : DepthUpdate := { U := 101, u := 101, pu := none, b := [(12, 1)], a := [] }

/-- A plain healthy replica used by several witnesses. -/
def wob : OrderBook :=
  { bids := [(10, 1)], asks := [(11, 1)], lastUpdateId := 100, needsResync := false,
    timestamp := 0, snapshotUpdateId := 100, hasReceivedUpdate := false }

/-- The same replica after its first applied update. -/
def wob2 : OrderBook :=
  { bids := [(10, 1)], asks := [(11, 1)], lastUpdateId := 100, needsResync := false,
    timestamp := 0, snapshotUpdateId := 100, hasReceivedUpdate := true }

/-- A diff with empty level lists and fresh ids (valid continuation). -/
def wupd : DepthUpdate := { U := 101, u := 105, pu := none, b := [], a := [] }

/-- A futures replica with one applied update, used by the C3
counterexample, with a stale mismatching diff. -/
def c3upd : DepthUpdate := { U := 40, u := 50, pu := some 99, b := [], a := [] }

/-- The C9 counterexample book: one bid level at price 1. -/
def c9ob : OrderBook :=
  { bids := [(1, 5)], asks := [], lastUpdateId := 100, needsResync := false,
    timestamp := 0, snapshotUpdateId := 100, hasReceivedUpdate := false }

/-- The epsilon-close price used by the C9 counterexample. -/
def c9p : ℚ := 1 + 1 / 10 ^ 11

/-- First C9 diff: quantity 3 at the epsilon-close price. -/
def c9upd1 : DepthUpdate := { U := 101, u := 101, pu := none, b := [(c9p, 3)], a := [] }

/-- Second C9 diff: quantity 0 at the epsilon-close price. -/
def c9upd2 : DepthUpdate := { U := 102, u := 102, pu := none, b := [(c9p, 0)], a := [] }

/-- An empty-book replica used by the C9 witness. -/
def eob : OrderBook :=
  { bids := [], asks := [], lastUpdateId := 100, needsResync := false,
    timestamp := 0, snapshotUpdateId := 100, hasReceivedUpdate := false }

/-! ### Well-formedness predicates (spec section 3, replica invariants) -/

/-- Bids are strictly decreasing by price. -/
def strictDesc (l : List Level) : Prop := l.Pairwise fun x y => y.1 < x.1

/-- Asks are strictly increasing by price. -/
def strictAsc (l : List Level) : Prop := l.Pairwise fun x y => x.1 < y.1

/-- All quantities on a side are strictly positive. -/
def posQty (l : List Level) : Prop := ∀ x ∈ l, 0 < x.2

/-- Prices within a side are pairwise distinct. -/
def nodupPrices (l : List Level) : Prop := l.Pairwise fun x y => x.1 ≠ y.1

/-- The book is not crossed: best bid below best ask when both exist. -/
def notCrossed (ob : OrderBook) : Prop :=
  match ob.bids, ob.asks with
  | bb :: _, ba :: _ => bb.1 < ba.1
  | _, _ => True

instance (l : List Level) : Decidable (strictDesc l) :=
  inferInstanceAs (Decidable (l.Pairwise fun x y : Level => y.1 < x.1))

instance (l : List Level) : Decidable (strictAsc l) :=
  inferInstanceAs (Decidable (l.Pairwise fun x y : Level => x.1 < y.1))

instance (l : List Level) : Decidable (posQty l) :=
  inferInstanceAs (Decidable (∀ x ∈ l, 0 < x.2))

instance (l : List Level) : Decidable (nodupPrices l) :=
  inferInstanceAs (Decidable (l.Pairwise fun x y : Level => x.1 ≠ y.1))

instance (ob : OrderBook) : Decidable (notCrossed ob) := by
  unfold notCrossed
  cases ob.bids <;> cases ob.asks <;> exact inferInstance

/-! ### Lemmas about the side-mutation primitives -/

theorem insDesc_perm (e : Level) (l : List Level) : (insDesc e l).Perm (e :: l) := by
  induction l with
  | nil => simp [insDesc]
  | cons x xs ih =>
    by_cases h : e.1 ≥ x.1
    · simp [insDesc, h]
    · simpa [insDesc, h] using ((ih.cons x).trans (List.Perm.swap e x xs))

theorem insAsc_perm (e : Level) (l : List Level) : (insAsc e l).Perm (e :: l) := by
  induction l with
  | nil => simp [insAsc]
  | cons x xs ih =>
    by_cases h : e.1 ≤ x.1
    · simp [insAsc, h]
    · simpa [insAsc, h] using ((ih.cons x).trans (List.Perm.swap e x xs))

theorem sortDesc_perm (l : List Level) : (sortDesc l).Perm l := by
  induction l with
  | nil => simp [sortDesc]
  | cons x xs ih =>
    exact ((insDesc_perm x (sortDesc xs)).trans (ih.cons x))

theorem sortAsc_perm (l : List Level) : (sortAsc l).Perm l := by
  induction l with
  | nil => simp [sortAsc]
  | cons x xs ih =>
    exact ((insAsc_perm x (sortAsc xs)).trans (ih.cons x))

theorem insDesc_pairwise_le (e : Level) (l : List Level)
    (h : l.Pairwise fun x y => y.1 ≤ x.1) :
    (insDesc e l).Pairwise fun x y => y.1 ≤ x.1 := by
  induction l with
  | nil => simp [insDesc]
  | cons x xs ih =>
    rcases List.pairwise_cons.mp h with ⟨hx, hxs⟩
    by_cases hc : e.1 ≥ x.1
    · simp only [insDesc, if_pos hc]
      refine List.pairwise_cons.mpr ⟨?_, h⟩
      intro y hy
      rcases List.mem_cons.mp hy with rfl | hy
      · exact hc
      · exact le_trans (hx y hy) hc
    · simp only [insDesc, if_neg hc]
      refine List.pairwise_cons.mpr ⟨?_, ih hxs⟩
      intro y hy
      have hy2 := ((insDesc_perm e xs).mem_iff).mp hy
      rcases List.mem_cons.mp hy2 with rfl | hy3
      · exact le_of_not_ge hc
      · exact hx y hy3

theorem insAsc_pairwise_le (e : Level) (l : List Level)
    (h : l.Pairwise fun x y => x.1 ≤ y.1) :
    (insAsc e l).Pairwise fun x y => x.1 ≤ y.1 := by
  induction l with
  | nil => simp [insAsc]
  | cons x xs ih =>
    rcases List.pairwise_cons.mp h with ⟨hx, hxs⟩
    by_cases hc : e.1 ≤ x.1
    · simp only [insAsc, if_pos hc]
      refine List.pairwise_cons.mpr ⟨?_, h⟩
      intro y hy
      rcases List.mem_cons.mp hy with rfl | hy
      · exact hc
      · exact le_trans hc (hx y hy)
    · simp only [insAsc, if_neg hc]
      refine List.pairwise_cons.mpr ⟨?_, ih hxs⟩
      intro y hy
      have hy2 := ((insAsc_perm e xs).mem_iff).mp hy
      rcases List.mem_cons.mp hy2 with rfl | hy3
      · exact le_of_not_le hc
      · exact hx y hy3

theorem sortDesc_pairwise_le (l : List Level) :
    (sortDesc l).Pairwise fun x y => y.1 ≤ x.1 := by
  induction l with
  | nil => simp [sortDesc]
  | cons x xs ih => exact insDesc_pairwise_le x (sortDesc xs) ih

theorem sortAsc_pairwise_le (l : List Level) :
    (sortAsc l).Pairwise fun x y => x.1 ≤ y.1 := by
  induction l with
  | nil => simp [sortAsc]
  | cons x xs ih => exact insAsc_pairwise_le x (sortAsc xs) ih

theorem nodupPrices_of_perm {l m : List Level} (h : l.Perm m) (hm : nodupPrices m) :
    nodupPrices l :=
  (h.pairwise_iff fun hxy => (Ne.symm hxy)).mpr hm

/-- A sort of a list with pairwise-distinct prices is strictly descending. -/
theorem sortDesc_strict (l : List Level) (h : nodupPrices l) :
    strictDesc (sortDesc l) := by
  have h1 := sortDesc_pairwise_le l
  have h2 : nodupPrices (sortDesc l) := nodupPrices_of_perm (sortDesc_perm l) h
  exact (h1.and h2).imp fun hab => lt_of_le_of_ne hab.1 (Ne.symm hab.2)

/-- A sort of a list with pairwise-distinct prices is strictly ascending. -/
theorem sortAsc_strict (l : List Level) (h : nodupPrices l) :
    strictAsc (sortAsc l) := by
  have h1 := sortAsc_pairwise_le l
  have h2 : nodupPrices (sortAsc l) := nodupPrices_of_perm (sortAsc_perm l) h
  exact (h1.and h2).imp fun hab => lt_of_le_of_ne hab.1 hab.2

theorem removeFirst_sublist (p : ℚ) (l : List Level) :
    List.Sublist (removeFirst p l) l := by
  induction l with
  | nil => simp [removeFirst]
  | cons x xs ih =>
    by_cases h : epsEq x.1 p
    · simp [removeFirst, h]
    · simpa [removeFirst, h] using ih.cons₂ x

/-- Setting a quantity leaves the price sequence of the side untouched. -/
theorem setFirst_map_fst (p q : ℚ) (l : List Level) :
    (setFirst p q l).map Prod.fst = l.map Prod.fst := by
  induction l with
  | nil => simp [setFirst]
  | cons x xs ih =>
    by_cases hc : epsEq x.1 p
    · simp [setFirst, hc]
    · simp [setFirst, hc, ih]

theorem setFirst_pairwise (r : ℚ → ℚ → Prop) (p q : ℚ) (l : List Level)
    (h : l.Pairwise fun x y => r x.1 y.1) :
    (setFirst p q l).Pairwise fun x y => r x.1 y.1 := by
  have h1 : (l.map Prod.fst).Pairwise r := List.pairwise_map.mpr h
  have h2 : ((setFirst p q l).map Prod.fst).Pairwise r := by
    rw [setFirst_map_fst]; exact h1
  exact List.pairwise_map.mp h2

theorem setFirst_mem {p q : ℚ} {l : List Level} {x : Level}
    (h : x ∈ setFirst p q l) : (∃ y ∈ l, x = (y.1, q)) ∨ x ∈ l := by
  induction l with
  | nil => simp [setFirst] at h
  | cons z zs ih =>
    by_cases hc : epsEq z.1 p
    · simp [setFirst, hc] at h
      rcases h with rfl | h
      · exact Or.inl ⟨z, List.mem_cons_self z zs, rfl⟩
      · exact Or.inr (List.mem_cons_of_mem z h)
    · simp [setFirst, hc] at h
      rcases h with h | h
      · exact Or.inr (by simp [h])
      · rcases ih h with ⟨y, hy, hxy⟩ | h2
        · exact Or.inl ⟨y, List.mem_cons_of_mem z hy, hxy⟩
        · exact Or.inr (List.mem_cons_of_mem z h2)

theorem eps_pos : 0 < eps := by norm_num [eps]

/-- When the epsilon test fails the prices are genuinely different. -/
theorem ne_of_epsEq_false {a b : ℚ} (h : ¬ epsEq a b = true) : a ≠ b := by
  intro hab
  exact h (by simp [epsEq, hab, abs_zero, eps_pos])

theorem strictDesc_nodupPrices {l : List Level} (h : strictDesc l) : nodupPrices l :=
  h.imp fun hab => ne_of_gt hab

theorem strictAsc_nodupPrices {l : List Level} (h : strictAsc l) : nodupPrices l :=
  h.imp fun hab => ne_of_lt hab

/-- The per-entry step of updateSide preserves strict descending order and
positive quantities on the bid side. -/
theorem applyLevel_bid_invariant (side : List Level) (e : Level)
    (h1 : strictDesc side) (h2 : posQty side) :
    strictDesc (applyLevel .bid side e) ∧ posQty (applyLevel .bid side e) := by
  unfold applyLevel
  by_cases hs : e.1 ≤ 0 ∨ e.2 < 0
  · rw [if_pos hs]; exact ⟨h1, h2⟩
  rw [if_neg hs]
  by_cases hd : passesDeviation side e.1 = true
  · rw [if_neg (not_not_intro hd)]
    by_cases hz : e.2 = 0
    · rw [if_pos hz]
      refine ⟨h1.sublist (removeFirst_sublist e.1 side), ?_⟩
      intro x hx
      exact h2 x ((removeFirst_sublist e.1 side).subset hx)
    rw [if_neg hz]
    have hq : 0 < e.2 := by
      push_neg at hs
      exact lt_of_le_of_ne hs.2 (Ne.symm hz)
    by_cases hc : containsEps e.1 side = true
    · rw [if_pos hc]
      refine ⟨setFirst_pairwise (fun a b => b < a) e.1 e.2 side h1, ?_⟩
      intro x hx
      rcases setFirst_mem hx with ⟨y, _, rfl⟩ | hmem
      · exact hq
      · exact h2 x hmem
    · rw [if_neg hc]
      have hnodup : nodupPrices (side ++ [e]) := by
        refine List.pairwise_append.mpr ⟨strictDesc_nodupPrices h1, ?_, ?_⟩
        · simp [nodupPrices]
        · intro a ha b hb
          have hb2 : b = e := by simpa using hb
          rw [hb2]
          have hne : ¬ epsEq a.1 e.1 = true := by
            intro hcontra
            refine hc ?_
            simp only [containsEps, List.any_eq_true]
            exact ⟨a, ha, hcontra⟩
          exact ne_of_epsEq_false hne
      refine ⟨sortDesc_strict _ hnodup, ?_⟩
      intro x hx
      have hx2 : x ∈ side ++ [e] := (sortDesc_perm _).subset hx
      rcases List.mem_append.mp hx2 with hmem | hmem
      · exact h2 x hmem
      · have hxe : x = e := by simpa using hmem
        exact hxe ▸ hq
  · rw [if_pos hd]; exact ⟨h1, h2⟩

/-- The per-entry step of updateSide preserves strict ascending order and
positive quantities on the ask side. -/
theorem applyLevel_ask_invariant (side : List Level) (e : Level)
    (h1 : strictAsc side) (h2 : posQty side) :
    strictAsc (applyLevel .ask side e) ∧ posQty (applyLevel .ask side e) := by
  unfold applyLevel
  by_cases hs : e.1 ≤ 0 ∨ e.2 < 0
  · rw [if_pos hs]; exact ⟨h1, h2⟩
  rw [if_neg hs]
  by_cases hd : passesDeviation side e.1 = true
  · rw [if_neg (not_not_intro hd)]
    by_cases hz : e.2 = 0
    · rw [if_pos hz]
      refine ⟨h1.sublist (removeFirst_sublist e.1 side), ?_⟩
      intro x hx
      exact h2 x ((removeFirst_sublist e.1 side).subset hx)
    rw [if_neg hz]
    have hq : 0 < e.2 := by
      push_neg at hs
      exact lt_of_le_of_ne hs.2 (Ne.symm hz)
    by_cases hc : containsEps e.1 side = true
    · rw [if_pos hc]
      refine ⟨setFirst_pairwise (fun a b => a < b) e.1 e.2 side h1, ?_⟩
      intro x hx
      rcases setFirst_mem hx with ⟨y, _, rfl⟩ | hmem
      · exact hq
      · exact h2 x hmem
    · rw [if_neg hc]
      have hnodup : nodupPrices (side ++ [e]) := by
        refine List.pairwise_append.mpr ⟨strictAsc_nodupPrices h1, ?_, ?_⟩
        · simp [nodupPrices]
        · intro a ha b hb
          have hb2 : b = e := by simpa using hb
          rw [hb2]
          have hne : ¬ epsEq a.1 e.1 = true := by
            intro hcontra
            refine hc ?_
            simp only [containsEps, List.any_eq_true]
            exact ⟨a, ha, hcontra⟩
          exact ne_of_epsEq_false hne
      refine ⟨sortAsc_strict _ hnodup, ?_⟩
      intro x hx
      have hx2 : x ∈ side ++ [e] := (sortAsc_perm _).subset hx
      rcases List.mem_append.mp hx2 with hmem | hmem
      · exact h2 x hmem
      · have hxe : x = e := by simpa using hmem
        exact hxe ▸ hq
  · rw [if_pos hd]; exact ⟨h1, h2⟩

theorem updateSide_bid_invariant (side : List Level) (updates : List Level)
    (h1 : strictDesc side) (h2 : posQty side) :
    strictDesc (updateSide .bid side updates) ∧ posQty (updateSide .bid side updates) := by
  induction updates generalizing side with
  | nil => exact ⟨h1, h2⟩
  | cons e rest ih =>
    have hstep := applyLevel_bid_invariant side e h1 h2
    exact ih (applyLevel .bid side e) hstep.1 hstep.2

theorem updateSide_ask_invariant (side : List Level) (updates : List Level)
    (h1 : strictAsc side) (h2 : posQty side) :
    strictAsc (updateSide .ask side updates) ∧ posQty (updateSide .ask side updates) := by
  induction updates generalizing side with
  | nil => exact ⟨h1, h2⟩
  | cons e rest ih =>
    have hstep := applyLevel_ask_invariant side e h1 h2
    exact ih (applyLevel .ask side e) hstep.1 hstep.2

theorem truncSide_subpreserving (symbol : String) (l : List Level) :
    List.Sublist (truncSide symbol l) l := by
  unfold truncSide
  split_ifs
  · exact List.take_sublist _ l
  · exact List.Sublist.refl l

theorem truncSide_length_le (symbol : String) (l : List Level) :
    (truncSide symbol l).length ≤ maxLevels symbol := by
  unfold truncSide
  split_ifs with h
  · rw [List.length_take]
    exact Nat.min_le_left _ _
  · exact le_of_not_gt h

/-- The state produced by applyUpdate is the input state, the input state
flagged for resync, or the applied state. -/
theorem applyUpdate_state_cases (symbol : String) (type : MarketType) (ob : OrderBook)
    (fc : Nat) (upd : DepthUpdate) (now : Int) :
    (applyUpdate symbol type ob fc upd now).2.1 = ob ∨
    (applyUpdate symbol type ob fc upd now).2.1 = { ob with needsResync := true } ∨
    (applyUpdate symbol type ob fc upd now).2.1 = applyBody symbol ob upd now := by
  cases type with
  | spot =>
    unfold applyUpdate
    split_ifs <;> simp
  | futures =>
    unfold applyUpdate
    rcases hpu : upd.pu with _ | pu <;> split_ifs <;> simp [hpu] <;> split_ifs <;> simp

theorem applyBody_side_invariants (symbol : String) (ob : OrderBook) (upd : DepthUpdate)
    (now : Int)
    (hb1 : strictDesc ob.bids) (hb2 : posQty ob.bids)
    (ha1 : strictAsc ob.asks) (ha2 : posQty ob.asks) :
    strictDesc (applyBody symbol ob upd now).bids ∧ posQty (applyBody symbol ob upd now).bids ∧
    strictAsc (applyBody symbol ob upd now).asks ∧ posQty (applyBody symbol ob upd now).asks := by
  have hbids : strictDesc (if upd.b ≠ [] then updateSide .bid ob.bids upd.b else ob.bids) ∧
      posQty (if upd.b ≠ [] then updateSide .bid ob.bids upd.b else ob.bids) := by
    split_ifs
    · exact updateSide_bid_invariant ob.bids upd.b hb1 hb2
    · exact ⟨hb1, hb2⟩
  have hasks : strictAsc (if upd.a ≠ [] then updateSide .ask ob.asks upd.a else ob.asks) ∧
      posQty (if upd.a ≠ [] then updateSide .ask ob.asks upd.a else ob.asks) := by
    split_ifs
    · exact updateSide_ask_invariant ob.asks upd.a ha1 ha2
    · exact ⟨ha1, ha2⟩
  refine ⟨hbids.1.sublist (truncSide_subpreserving _ _), ?_,
          hasks.1.sublist (truncSide_subpreserving _ _), ?_⟩
  · intro x hx
    exact hbids.2 x ((truncSide_subpreserving _ _).subset hx)
  · intro x hx
    exact hasks.2 x ((truncSide_subpreserving _ _).subset hx)

/-- Every path of applyUpdate, with its full (result, state, counter) value. -/
theorem applyUpdate_total_cases (symbol : String) (type : MarketType) (ob : OrderBook)
    (fc : Nat) (upd : DepthUpdate) (now : Int) :
    applyUpdate symbol type ob fc upd now = (.ignored, ob, fc) ∨
    applyUpdate symbol type ob fc upd now = (.stale, ob, fc) ∨
    applyUpdate symbol type ob fc upd now = (.gap, { ob with needsResync := true }, fc) ∨
    applyUpdate symbol type ob fc upd now = (.gap, { ob with needsResync := true }, 0) ∨
    applyUpdate symbol type ob fc upd now = (.notReady, ob, fc) ∨
    applyUpdate symbol type ob fc upd now = (.notReady, ob, fc + 1) ∨
    applyUpdate symbol type ob fc upd now = (.applied, applyBody symbol ob upd now, 0) ∨
    applyUpdate symbol type ob fc upd now = (.applied, applyBody symbol ob upd now, fc) := by
  cases type with
  | spot =>
    unfold applyUpdate
    split_ifs <;> tauto
  | futures =>
    unfold applyUpdate
    rcases hpu : upd.pu with _ | pu <;> split_ifs <;> simp [hpu] <;> split_ifs <;> tauto

/-- A run that returns `applied` ends in the applied state. -/
theorem applyUpdate_applied_state (symbol : String) (type : MarketType) (ob : OrderBook)
    (fc : Nat) (upd : DepthUpdate) (now : Int)
    (h : (applyUpdate symbol type ob fc upd now).1 = .applied) :
    (applyUpdate symbol type ob fc upd now).2.1 = applyBody symbol ob upd now := by
  rcases applyUpdate_total_cases symbol type ob fc upd now with
    h1 | h1 | h1 | h1 | h1 | h1 | h1 | h1 <;> rw [h1] at h ⊢ <;> simp_all

/--
C4 (amended).  Diff application preserves per-side well-formedness: if
the bids are strictly decreasing with positive quantities and the asks
strictly increasing with positive quantities, then after any applyUpdate
call both sides are again strictly ordered with pairwise-distinct prices
and positive quantities.  (The no-crossed-book clause of the original
claim is not guaranteed; see the counterexample.)
-/
theorem c4_per_side_wellformedness_preserved (symbol : String) (type : MarketType)
    (ob : OrderBook) (fc : Nat) (upd : DepthUpdate) (now : Int)
    (hb1 : strictDesc ob.bids) (hb2 : posQty ob.bids)
    (ha1 : strictAsc ob.asks) (ha2 : posQty ob.asks) :
    strictDesc (applyUpdate symbol type ob fc upd now).2.1.bids ∧
    nodupPrices (applyUpdate symbol type ob fc upd now).2.1.bids ∧
    posQty (applyUpdate symbol type ob fc upd now).2.1.bids ∧
    strictAsc (applyUpdate symbol type ob fc upd now).2.1.asks ∧
    nodupPrices (applyUpdate symbol type ob fc upd now).2.1.asks ∧
    posQty (applyUpdate symbol type ob fc upd now).2.1.asks := by
  rcases applyUpdate_state_cases symbol type ob fc upd now with h | h | h <;> rw [h]
  · exact ⟨hb1, strictDesc_nodupPrices hb1, hb2, ha1, strictAsc_nodupPrices ha1, ha2⟩
  · exact ⟨hb1, strictDesc_nodupPrices hb1, hb2, ha1, strictAsc_nodupPrices ha1, ha2⟩
  · obtain ⟨x1, x2, x3, x4⟩ := applyBody_side_invariants symbol ob upd now hb1 hb2 ha1 ha2
    exact ⟨x1, strictDesc_nodupPrices x1, x2, x3, strictAsc_nodupPrices x3, x4⟩

theorem c4_per_side_wellformedness_preserved_witness :
    strictDesc wob.bids ∧ posQty wob.bids ∧ strictAsc wob.asks ∧ posQty wob.asks ∧
    (strictDesc (applyUpdate "X" .spot wob 0 wupd 5).2.1.bids ∧
     nodupPrices (applyUpdate "X" .spot wob 0 wupd 5).2.1.bids ∧
     posQty (applyUpdate "X" .spot wob 0 wupd 5).2.1.bids ∧
     strictAsc (applyUpdate "X" .spot wob 0 wupd 5).2.1.asks ∧
     nodupPrices (applyUpdate "X" .spot wob 0 wupd 5).2.1.asks ∧
     posQty (applyUpdate "X" .spot wob 0 wupd 5).2.1.asks) :=
  ⟨by decide, by decide, by decide, by decide,
   c4_per_side_wellformedness_preserved "X" .spot wob 0 wupd 5
     (by decide) (by decide) (by decide) (by decide)⟩

/--
C4 (counterexample).  A well-formed replica (bids empty, one ask at 11)
accepts the valid spot continuation inserting a bid at 12; the diff is
applied and the resulting book is crossed: the best bid 12 is not below
the best ask 11.  applyUpdate never compares a new bid against the asks.
-/
theorem c4_counterexample :
    (strictDesc c4ob.bids ∧ posQty c4ob.bids ∧ strictAsc c4ob.asks ∧ posQty c4ob.asks ∧
     notCrossed c4ob) ∧
    (applyUpdate "X" .spot c4ob 0 c4upd 5).1 = .applied ∧
    ¬ notCrossed (applyUpdate "X" .spot c4ob 0 c4upd 5).2.1 := by
  decide

/--
C5.  After every applied diff both sides hold at most maxLevels levels,
where maxLevels is 500 for BTCUSDT and ETHUSDT and 300 for every other
symbol.
-/
theorem c5_max_levels (symbol : String) (type : MarketType) (ob : OrderBook)
    (fc : Nat) (upd : DepthUpdate) (now : Int)
    (h : (applyUpdate symbol type ob fc upd now).1 = .applied) :
    (applyUpdate symbol type ob fc upd now).2.1.bids.length ≤ maxLevels symbol ∧
    (applyUpdate symbol type ob fc upd now).2.1.asks.length ≤ maxLevels symbol ∧
    maxLevels symbol = (if symbol = "BTCUSDT" ∨ symbol = "ETHUSDT" then 500 else 300) := by
  rw [applyUpdate_applied_state symbol type ob fc upd now h]
  exact ⟨truncSide_length_le _ _, truncSide_length_le _ _, rfl⟩

theorem c5_max_levels_witness :
    (applyUpdate "X" .spot wob 0 wupd 5).1 = .applied ∧
    ((applyUpdate "X" .spot wob 0 wupd 5).2.1.bids.length ≤ maxLevels "X" ∧
     (applyUpdate "X" .spot wob 0 wupd 5).2.1.asks.length ≤ maxLevels "X" ∧
     maxLevels "X" = (if "X" = "BTCUSDT" ∨ "X" = "ETHUSDT" then 500 else 300)) :=
  ⟨by decide, c5_max_levels "X" .spot wob 0 wupd 5 (by decide)⟩

theorem updateSide_nil (st : SideType) (side : List Level) : updateSide st side [] = side := rfl

theorem guardedUpdate_eq (st : SideType) (side l : List Level) :
    (if l ≠ [] then updateSide st side l else side) = updateSide st side l := by
  split_ifs with h
  · rfl
  · rw [not_not.mp h, updateSide_nil]

/-- applyBody with the empty-list guards collapsed. -/
theorem applyBody_eq (symbol : String) (ob : OrderBook) (upd : DepthUpdate) (now : Int) :
    applyBody symbol ob upd now =
      { ob with
        bids := truncSide symbol (updateSide .bid ob.bids upd.b),
        asks := truncSide symbol (updateSide .ask ob.asks upd.a),
        lastUpdateId := upd.u, timestamp := now, hasReceivedUpdate := true } := by
  unfold applyBody
  rw [guardedUpdate_eq, guardedUpdate_eq]

/--
C1.  Spot diff application: with `L = ob.lastUpdateId`, a diff with
`u ≤ L` returns Stale leaving replica and counter unchanged; otherwise a
diff with `U > L + 1` marks needsResync and returns Gap; otherwise the
diff is applied: b is applied to the bids, a to the asks, lastUpdateId
becomes u, hasReceivedUpdate becomes true, and the result is Applied.
-/
theorem c1_spot_diff_application (symbol : String) (ob : OrderBook) (fc : Nat)
    (upd : DepthUpdate) (now : Int) (h : ob.needsResync = false) :
    (upd.u ≤ ob.lastUpdateId →
      applyUpdate symbol .spot ob fc upd now = (.stale, ob, fc)) ∧
    (ob.lastUpdateId < upd.u → ob.lastUpdateId + 1 < upd.U →
      applyUpdate symbol .spot ob fc upd now = (.gap, { ob with needsResync := true }, fc)) ∧
    (ob.lastUpdateId < upd.u → upd.U ≤ ob.lastUpdateId + 1 →
      applyUpdate symbol .spot ob fc upd now =
        (.applied,
         { ob with
           bids := truncSide symbol (updateSide .bid ob.bids upd.b),
           asks := truncSide symbol (updateSide .ask ob.asks upd.a),
           lastUpdateId := upd.u, timestamp := now, hasReceivedUpdate := true }, fc)) := by
  have hnr : ¬ (ob.needsResync = true) := by simp [h]
  refine ⟨?_, ?_, ?_⟩
  · intro h1
    unfold applyUpdate
    rw [if_neg hnr, if_pos h1]
  · intro h1 h2
    unfold applyUpdate
    rw [if_neg hnr, if_neg (not_le.mpr h1), if_pos h2]
  · intro h1 h2
    unfold applyUpdate
    rw [if_neg hnr, if_neg (not_le.mpr h1), if_neg (not_lt.mpr h2), applyBody_eq]

theorem c1_spot_diff_application_witness :
    wob.needsResync = false ∧
    applyUpdate "X" .spot wob 0 { U := 60, u := 100, pu := none, b := [], a := [] } 5
      = (.stale, wob, 0) ∧
    applyUpdate "X" .spot wob 0 { U := 200, u := 210, pu := none, b := [], a := [] } 5
      = (.gap, { wob with needsResync := true }, 0) ∧
    applyUpdate "X" .spot wob 0 wupd 5
      = (.applied,
         { wob with
           bids := truncSide "X" (updateSide .bid wob.bids wupd.b),
           asks := truncSide "X" (updateSide .ask wob.asks wupd.a),
           lastUpdateId := wupd.u, timestamp := 5, hasReceivedUpdate := true }, 0) :=
  ⟨rfl,
   (c1_spot_diff_application "X" wob 0 _ 5 rfl).1 (by decide),
   (c1_spot_diff_application "X" wob 0 _ 5 rfl).2.1 (by decide) (by decide),
   (c1_spot_diff_application "X" wob 0 wupd 5 rfl).2.2 (by decide) (by decide)⟩

/--
C2.  Futures first event (hasReceivedUpdate still false): whatever the
pu field holds, a diff passing the coverage test `U ≤ L+1 ≤ u` is
applied cleanly (lastUpdateId becomes u, needsResync stays false), and a
diff failing it is discarded without touching the replica, the counter,
or the resync flag.
-/
theorem c2_futures_first_event (symbol : String) (ob : OrderBook) (fc : Nat)
    (upd : DepthUpdate) (now : Int)
    (h : ob.needsResync = false) (hfirst : ob.hasReceivedUpdate = false) :
    (upd.U ≤ ob.lastUpdateId + 1 → ob.lastUpdateId + 1 ≤ upd.u →
      (applyUpdate symbol .futures ob fc upd now).1 = .applied ∧
      (applyUpdate symbol .futures ob fc upd now).2.1.lastUpdateId = upd.u ∧
      (applyUpdate symbol .futures ob fc upd now).2.1.needsResync = false) ∧
    (¬ (upd.U ≤ ob.lastUpdateId + 1 ∧ ob.lastUpdateId + 1 ≤ upd.u) →
      (applyUpdate symbol .futures ob fc upd now).1 ≠ .applied ∧
      (applyUpdate symbol .futures ob fc upd now).2.1 = ob ∧
      (applyUpdate symbol .futures ob fc upd now).2.2 = fc) := by
  have hnr : ¬ (ob.needsResync = true) := by simp [h]
  constructor
  · intro h1 h2
    have hstale : ¬ (upd.u < ob.lastUpdateId) := by
      intro hlt
      have : ob.lastUpdateId + 1 ≤ ob.lastUpdateId := le_trans h2 (le_of_lt hlt)
      omega
    unfold applyUpdate
    rw [if_neg hnr, if_neg hstale, if_pos hfirst, if_pos ⟨h1, h2⟩]
    refine ⟨rfl, ?_, ?_⟩
    · rw [applyBody_eq]
    · rw [applyBody_eq]
      exact h
  · intro hcov
    by_cases hstale : upd.u < ob.lastUpdateId
    · unfold applyUpdate
      rw [if_neg hnr, if_pos hstale]
      exact ⟨by simp, rfl, rfl⟩
    · unfold applyUpdate
      rw [if_neg hnr, if_neg hstale, if_pos hfirst, if_neg hcov]
      exact ⟨by simp, rfl, rfl⟩

theorem c2_futures_first_event_witness :
    wob.needsResync = false ∧ wob.hasReceivedUpdate = false ∧
    ((90 : Int) ≤ wob.lastUpdateId + 1 → wob.lastUpdateId + 1 ≤ (101 : Int) →
      (applyUpdate "F" .futures wob 0 { U := 90, u := 101, pu := some 77, b := [], a := [] } 5).1
        = .applied ∧
      (applyUpdate "F" .futures wob 0
        { U := 90, u := 101, pu := some 77, b := [], a := [] } 5).2.1.lastUpdateId = 101 ∧
      (applyUpdate "F" .futures wob 0
        { U := 90, u := 101, pu := some 77, b := [], a := [] } 5).2.1.needsResync = false) ∧
    (¬ ((90 : Int) ≤ wob.lastUpdateId + 1 ∧ wob.lastUpdateId + 1 ≤ (101 : Int)) →
      (applyUpdate "F" .futures wob 0
        { U := 90, u := 101, pu := some 77, b := [], a := [] } 5).1 ≠ .applied ∧
      (applyUpdate "F" .futures wob 0
        { U := 90, u := 101, pu := some 77, b := [], a := [] } 5).2.1 = wob ∧
      (applyUpdate "F" .futures wob 0
        { U := 90, u := 101, pu := some 77, b := [], a := [] } 5).2.2 = 0) :=
  ⟨rfl, rfl,
   (c2_futures_first_event "F" wob 0 { U := 90, u := 101, pu := some 77, b := [], a := [] } 5
      rfl rfl).1,
   (c2_futures_first_event "F" wob 0 { U := 90, u := 101, pu := some 77, b := [], a := [] } 5
      rfl rfl).2⟩

/--
C3 (counterexample).  A futures replica past its first applied update
(lastUpdateId 100) receives a stale diff (u = 50) whose pu = 99 differs
from 100.  The diff is discarded on the staleness check and the
soft-failure counter stays 0: contrary to the claim, a pu mismatch does
not always increment the counter.
-/
theorem c3_counterexample :
    c3upd.pu = some 99 ∧ (99 : Int) ≠ wob2.lastUpdateId ∧
    wob2.hasReceivedUpdate = true ∧ wob2.needsResync = false ∧
    applyUpdate "X" .futures wob2 0 c3upd 5 = (.stale, wob2, 0) := by
  decide

/-- The futures path for a subsequent event whose pu field is present:
the code reduces to the pu continuity check. -/
theorem applyUpdate_futures_pu (symbol : String) (ob : OrderBook) (fc : Nat)
    (upd : DepthUpdate) (now : Int) (pu : Int)
    (h : ob.needsResync = false) (hrecv : ob.hasReceivedUpdate = true)
    (hpu : upd.pu = some pu) (hu : ¬ (upd.u < ob.lastUpdateId)) :
    applyUpdate symbol .futures ob fc upd now =
      (if pu ≠ ob.lastUpdateId then
        if fc + 1 ≥ 3 then (.gap, { ob with needsResync := true }, 0)
        else (.notReady, ob, fc + 1)
      else (.applied, applyBody symbol ob upd now, 0)) := by
  unfold applyUpdate
  rw [if_neg (by simp [h] : ¬ (ob.needsResync = true)), if_neg hu,
    if_neg (by simp [hrecv] : ¬ (ob.hasReceivedUpdate = false)), hpu]

/--
C3 (amended).  For a futures replica past its first applied update, a
non-stale diff (`u ≥ L`) whose pu is present and differs from L is
discarded and increments the soft-failure counter; when the counter
reaches 3 the replica is marked needsResync, the counter resets to 0 and
the result is Gap, while at counts 1 and 2 the diff is discarded with
NotReady and no resync.
-/
theorem c3_futures_pu_mismatch (symbol : String) (ob : OrderBook) (fc : Nat)
    (upd : DepthUpdate) (now : Int) (pu : Int)
    (h : ob.needsResync = false) (hrecv : ob.hasReceivedUpdate = true)
    (hpu : upd.pu = some pu) (hne : pu ≠ ob.lastUpdateId)
    (hu : ob.lastUpdateId ≤ upd.u) :
    (fc + 1 < 3 →
      applyUpdate symbol .futures ob fc upd now = (.notReady, ob, fc + 1)) ∧
    (3 ≤ fc + 1 →
      applyUpdate symbol .futures ob fc upd now = (.gap, { ob with needsResync := true }, 0)) := by
  have heq := applyUpdate_futures_pu symbol ob fc upd now pu h hrecv hpu (not_lt.mpr hu)
  constructor
  · intro h3
    rw [heq, if_pos hne, if_neg (not_le.mpr h3)]
  · intro h3
    rw [heq, if_pos hne, if_pos h3]

theorem c3_futures_pu_mismatch_witness :
    wob2.needsResync = false ∧ wob2.hasReceivedUpdate = true ∧
    ({ U := 106, u := 106, pu := some 99, b := [], a := [] } : DepthUpdate).pu = some 99 ∧
    (99 : Int) ≠ wob2.lastUpdateId ∧ wob2.lastUpdateId ≤ (106 : Int) ∧
    ((0 + 1 < 3 →
      applyUpdate "X" .futures wob2 0 { U := 106, u := 106, pu := some 99, b := [], a := [] } 5
        = (.notReady, wob2, 0 + 1)) ∧
     (3 ≤ 0 + 1 →
      applyUpdate "X" .futures wob2 0 { U := 106, u := 106, pu := some 99, b := [], a := [] } 5
        = (.gap, { wob2 with needsResync := true }, 0))) :=
  ⟨rfl, rfl, rfl, by decide, by decide,
   c3_futures_pu_mismatch "X" wob2 0 { U := 106, u := 106, pu := some 99, b := [], a := [] } 5 99
     rfl rfl rfl (by decide) (by decide)⟩

/--
C10.  For a futures replica past its first applied update, a diff whose
pu field is absent and whose `u ≥ L` is applied (result Applied, the
body applied, lastUpdateId = u) with no continuity check: the
soft-failure counter is passed through unchanged.
-/
theorem c10_futures_absent_pu (symbol : String) (ob : OrderBook) (fc : Nat)
    (upd : DepthUpdate) (now : Int)
    (h : ob.needsResync = false) (hrecv : ob.hasReceivedUpdate = true)
    (hpu : upd.pu = none) (hu : ob.lastUpdateId ≤ upd.u) :
    applyUpdate symbol .futures ob fc upd now = (.applied, applyBody symbol ob upd now, fc) ∧
    (applyUpdate symbol .futures ob fc upd now).2.1.lastUpdateId = upd.u ∧
    (applyUpdate symbol .futures ob fc upd now).2.2 = fc := by
  have hnr : ¬ (ob.needsResync = true) := by simp [h]
  have hfirst : ¬ (ob.hasReceivedUpdate = false) := by simp [hrecv]
  have hmain : applyUpdate symbol .futures ob fc upd now
      = (.applied, applyBody symbol ob upd now, fc) := by
    unfold applyUpdate
    rw [if_neg hnr, if_neg (not_lt.mpr hu), if_neg hfirst, hpu]
  refine ⟨hmain, ?_, ?_⟩
  · rw [hmain, applyBody_eq]
  · rw [hmain]

theorem c10_futures_absent_pu_witness :
    wob2.needsResync = false ∧ wob2.hasReceivedUpdate = true ∧
    ({ U := 300, u := 300, pu := none, b := [], a := [] } : DepthUpdate).pu = none ∧
    wob2.lastUpdateId ≤ (300 : Int) ∧
    (applyUpdate "X" .futures wob2 7 { U := 300, u := 300, pu := none, b := [], a := [] } 5
       = (.applied,
          applyBody "X" wob2 { U := 300, u := 300, pu := none, b := [], a := [] } 5, 7) ∧
     (applyUpdate "X" .futures wob2 7
        { U := 300, u := 300, pu := none, b := [], a := [] } 5).2.1.lastUpdateId = 300 ∧
     (applyUpdate "X" .futures wob2 7
        { U := 300, u := 300, pu := none, b := [], a := [] } 5).2.2 = 7) :=
  ⟨rfl, rfl, rfl, by decide,
   c10_futures_absent_pu "X" wob2 7 { U := 300, u := 300, pu := none, b := [], a := [] } 5
     rfl rfl rfl (by decide)⟩

/-! ### Round-trip machinery for insert-then-delete (claim C9) -/

theorem epsEq_self (a : ℚ) : epsEq a a = true := by
  simp [epsEq, sub_self, abs_zero, eps_pos]

theorem insDesc_eq_cons (e : Level) (l : List Level) (h : ∀ y ∈ l, y.1 ≤ e.1) :
    insDesc e l = e :: l := by
  cases l with
  | nil => rfl
  | cons x xs => simp only [insDesc, if_pos (h x (List.mem_cons_self x xs) : x.1 ≤ e.1)]

theorem insAsc_eq_cons (e : Level) (l : List Level) (h : ∀ y ∈ l, e.1 ≤ y.1) :
    insAsc e l = e :: l := by
  cases l with
  | nil => rfl
  | cons x xs => simp only [insAsc, if_pos (h x (List.mem_cons_self x xs) : e.1 ≤ x.1)]

/-- Stably sorting a sorted list with one appended fresh-price element is
an ordered insertion. -/
theorem sortDesc_append_singleton (l : List Level) (e : Level)
    (hsorted : l.Pairwise fun x y => y.1 ≤ x.1) (hne : ∀ y ∈ l, y.1 ≠ e.1) :
    sortDesc (l ++ [e]) = insDesc e l := by
  induction l with
  | nil => rfl
  | cons x xs ih =>
    rcases List.pairwise_cons.mp hsorted with ⟨hx, hxs⟩
    have hnx : ∀ y ∈ xs, y.1 ≠ e.1 := fun y hy => hne y (List.mem_cons_of_mem x hy)
    show insDesc x (sortDesc (xs ++ [e])) = insDesc e (x :: xs)
    rw [ih hxs hnx]
    by_cases hcase : x.1 ≤ e.1
    · have hgt : x.1 < e.1 := lt_of_le_of_ne hcase (hne x (List.mem_cons_self x xs))
      have h1 : insDesc e xs = e :: xs :=
        insDesc_eq_cons e xs fun y hy => le_trans (hx y hy) (le_of_lt hgt)
      rw [h1]
      show insDesc x (e :: xs) = insDesc e (x :: xs)
      simp only [insDesc]
      rw [if_neg (not_le.mpr hgt : ¬ x.1 ≥ e.1), if_pos (le_of_lt hgt : e.1 ≥ x.1)]
      rw [insDesc_eq_cons x xs hx]
    · have hlt : e.1 < x.1 := not_le.mp hcase
      have hall : ∀ y ∈ insDesc e xs, y.1 ≤ x.1 := by
        intro y hy
        have hy2 : y ∈ e :: xs := (insDesc_perm e xs).subset hy
        rcases List.mem_cons.mp hy2 with rfl | hy3
        · exact le_of_lt hlt
        · exact hx y hy3
      rw [insDesc_eq_cons x (insDesc e xs) hall]
      show x :: insDesc e xs = insDesc e (x :: xs)
      simp only [insDesc]
      rw [if_neg (not_le.mpr hlt : ¬ e.1 ≥ x.1)]

theorem sortAsc_append_singleton (l : List Level) (e : Level)
    (hsorted : l.Pairwise fun x y => x.1 ≤ y.1) (hne : ∀ y ∈ l, y.1 ≠ e.1) :
    sortAsc (l ++ [e]) = insAsc e l := by
  induction l with
  | nil => rfl
  | cons x xs ih =>
    rcases List.pairwise_cons.mp hsorted with ⟨hx, hxs⟩
    have hnx : ∀ y ∈ xs, y.1 ≠ e.1 := fun y hy => hne y (List.mem_cons_of_mem x hy)
    show insAsc x (sortAsc (xs ++ [e])) = insAsc e (x :: xs)
    rw [ih hxs hnx]
    by_cases hcase : e.1 ≤ x.1
    · have hgt : e.1 < x.1 := lt_of_le_of_ne hcase fun habs => hne x (List.mem_cons_self x xs) habs.symm
      have h1 : insAsc e xs = e :: xs :=
        insAsc_eq_cons e xs fun y hy => le_trans (le_of_lt hgt) (hx y hy)
      rw [h1]
      show insAsc x (e :: xs) = insAsc e (x :: xs)
      simp only [insAsc]
      rw [if_neg (not_le.mpr hgt : ¬ x.1 ≤ e.1), if_pos (le_of_lt hgt : e.1 ≤ x.1)]
      rw [insAsc_eq_cons x xs hx]
    · have hlt : x.1 < e.1 := not_le.mp hcase
      have hall : ∀ y ∈ insAsc e xs, x.1 ≤ y.1 := by
        intro y hy
        have hy2 : y ∈ e :: xs := (insAsc_perm e xs).subset hy
        rcases List.mem_cons.mp hy2 with rfl | hy3
        · exact le_of_lt hlt
        · exact hx y hy3
      rw [insAsc_eq_cons x (insAsc e xs) hall]
      show x :: insAsc e xs = insAsc e (x :: xs)
      simp only [insAsc]
      rw [if_neg (not_le.mpr hlt : ¬ e.1 ≤ x.1)]

/-- Removing a freshly inserted level recovers the original list. -/
theorem removeFirst_insDesc (e : Level) (l : List Level)
    (h : ∀ y ∈ l, ¬ epsEq y.1 e.1 = true) :
    removeFirst e.1 (insDesc e l) = l := by
  induction l with
  | nil => simp [insDesc, removeFirst, epsEq_self]
  | cons x xs ih =>
    by_cases hc : e.1 ≥ x.1
    · simp [insDesc, if_pos hc, removeFirst, epsEq_self]
    · simp only [insDesc, if_neg hc, removeFirst]
      rw [if_neg (h x (List.mem_cons_self x xs))]
      rw [ih fun y hy => h y (List.mem_cons_of_mem x hy)]

theorem removeFirst_insAsc (e : Level) (l : List Level)
    (h : ∀ y ∈ l, ¬ epsEq y.1 e.1 = true) :
    removeFirst e.1 (insAsc e l) = l := by
  induction l with
  | nil => simp [insAsc, removeFirst, epsEq_self]
  | cons x xs ih =>
    by_cases hc : e.1 ≤ x.1
    · simp [insAsc, if_pos hc, removeFirst, epsEq_self]
    · simp only [insAsc, if_neg hc, removeFirst]
      rw [if_neg (h x (List.mem_cons_self x xs))]
      rw [ih fun y hy => h y (List.mem_cons_of_mem x hy)]

theorem setFirst_length (p q : ℚ) (l : List Level) :
    (setFirst p q l).length = l.length := by
  have h := congrArg List.length (setFirst_map_fst p q l)
  simpa using h

theorem applyLevel_length_le (st : SideType) (side : List Level) (e : Level) :
    (applyLevel st side e).length ≤ side.length + 1 := by
  unfold applyLevel
  by_cases hs : e.1 ≤ 0 ∨ e.2 < 0
  · rw [if_pos hs]; exact Nat.le_succ _
  rw [if_neg hs]
  by_cases hd : passesDeviation side e.1 = true
  · rw [if_neg (not_not_intro hd)]
    by_cases hz : e.2 = 0
    · rw [if_pos hz]
      exact le_trans (removeFirst_sublist e.1 side).length_le (Nat.le_succ _)
    rw [if_neg hz]
    by_cases hc : containsEps e.1 side = true
    · rw [if_pos hc, setFirst_length]
      exact Nat.le_succ _
    · rw [if_neg hc]
      have hlen : (sortSide st (side ++ [e])).length = side.length + 1 := by
        cases st with
        | bid =>
          show (sortDesc (side ++ [e])).length = side.length + 1
          rw [(sortDesc_perm (side ++ [e])).length_eq]; simp
        | ask =>
          show (sortAsc (side ++ [e])).length = side.length + 1
          rw [(sortAsc_perm (side ++ [e])).length_eq]; simp
      rw [hlen]
  · rw [if_pos hd]; exact Nat.le_succ _

theorem truncSide_eq_of_le (symbol : String) (l : List Level)
    (h : l.length ≤ maxLevels symbol) : truncSide symbol l = l := by
  unfold truncSide
  rw [if_neg (not_lt.mpr h)]

/-- The applied spot path as one equation. -/
theorem applyUpdate_spot_applied (symbol : String) (ob : OrderBook) (fc : Nat)
    (upd : DepthUpdate) (now : Int) (h : ob.needsResync = false)
    (h1 : ob.lastUpdateId < upd.u) (h2 : upd.U ≤ ob.lastUpdateId + 1) :
    applyUpdate symbol .spot ob fc upd now = (.applied, applyBody symbol ob upd now, fc) := by
  unfold applyUpdate
  rw [if_neg (by simp [h] : ¬ (ob.needsResync = true)), if_neg (not_le.mpr h1),
    if_neg (not_lt.mpr h2)]

/-- Inserting a fresh level (p, q) with q > 0 into a sorted bid side and
then applying (p, 0) restores the side exactly. -/
theorem updateSide_insert_remove_bid (l : List Level) (p q : ℚ)
    (hsorted : strictDesc l) (hfresh : ∀ y ∈ l, ¬ epsEq y.1 p = true) (hq : 0 < q) :
    updateSide .bid (updateSide .bid l [(p, q)]) [(p, 0)] = l := by
  show applyLevel .bid (applyLevel .bid l (p, q)) (p, 0) = l
  by_cases hp : p ≤ 0
  · unfold applyLevel
    rw [if_pos (Or.inl hp : (p, q).1 ≤ 0 ∨ (p, q).2 < 0)]
    rw [if_pos (Or.inl hp : (p, (0 : ℚ)).1 ≤ 0 ∨ ((0 : ℚ)) < 0)]
  · have hp2 : 0 < p := not_le.mp hp
    have hsan1 : ¬ ((p, q).1 ≤ 0 ∨ (p, q).2 < 0) := by
      push_neg
      exact ⟨hp2, le_of_lt hq⟩
    have hsan2 : ¬ ((p, (0 : ℚ)).1 ≤ 0 ∨ ((0 : ℚ)) < 0) := by
      push_neg
      exact ⟨hp2, le_refl 0⟩
    unfold applyLevel
    rw [if_neg hsan1]
    by_cases hdev : passesDeviation l p = true
    · rw [if_neg (not_not_intro hdev)]
      rw [if_neg (ne_of_gt hq : (p, q).2 ≠ 0)]
      have hcont : ¬ containsEps p l = true := by
        intro hcontra
        simp only [containsEps, List.any_eq_true] at hcontra
        obtain ⟨y, hy, hyeq⟩ := hcontra
        exact hfresh y hy hyeq
      rw [if_neg hcont]
      have hins : sortSide .bid (l ++ [(p, q)]) = insDesc (p, q) l := by
        show sortDesc (l ++ [(p, q)]) = insDesc (p, q) l
        exact sortDesc_append_singleton l (p, q) (hsorted.imp fun hab => le_of_lt hab)
          fun y hy => ne_of_epsEq_false (hfresh y hy)
      rw [hins, if_neg hsan2]
      have hdev2 : passesDeviation (insDesc (p, q) l) p = true := by
        have hnd : ¬ (|p - p| / p > 1 / 2) := by
          rw [sub_self, abs_zero, zero_div]
          norm_num
        cases l with
        | nil => simp [insDesc, passesDeviation, hnd]
        | cons x xs =>
          by_cases hcx : (p, q).1 ≥ x.1
          · simp only [insDesc, if_pos hcx]
            simp [passesDeviation, hnd]
          · simp only [insDesc, if_neg hcx]
            exact hdev
      rw [if_neg (not_not_intro hdev2), if_pos (rfl : ((p, (0 : ℚ)).2 = 0))]
      exact removeFirst_insDesc (p, q) l hfresh
    · rw [if_pos (hdev : ¬ passesDeviation l (p, q).1 = true)]
      rw [if_neg hsan2, if_pos (hdev : ¬ passesDeviation l (p, (0 : ℚ)).1 = true)]

/-- The ask-side mirror of the previous theorem. -/
theorem updateSide_insert_remove_ask (l : List Level) (p q : ℚ)
    (hsorted : strictAsc l) (hfresh : ∀ y ∈ l, ¬ epsEq y.1 p = true) (hq : 0 < q) :
    updateSide .ask (updateSide .ask l [(p, q)]) [(p, 0)] = l := by
  show applyLevel .ask (applyLevel .ask l (p, q)) (p, 0) = l
  by_cases hp : p ≤ 0
  · unfold applyLevel
    rw [if_pos (Or.inl hp : (p, q).1 ≤ 0 ∨ (p, q).2 < 0)]
    rw [if_pos (Or.inl hp : (p, (0 : ℚ)).1 ≤ 0 ∨ ((0 : ℚ)) < 0)]
  · have hp2 : 0 < p := not_le.mp hp
    have hsan1 : ¬ ((p, q).1 ≤ 0 ∨ (p, q).2 < 0) := by
      push_neg
      exact ⟨hp2, le_of_lt hq⟩
    have hsan2 : ¬ ((p, (0 : ℚ)).1 ≤ 0 ∨ ((0 : ℚ)) < 0) := by
      push_neg
      exact ⟨hp2, le_refl 0⟩
    unfold applyLevel
    rw [if_neg hsan1]
    by_cases hdev : passesDeviation l p = true
    · rw [if_neg (not_not_intro hdev)]
      rw [if_neg (ne_of_gt hq : (p, q).2 ≠ 0)]
      have hcont : ¬ containsEps p l = true := by
        intro hcontra
        simp only [containsEps, List.any_eq_true] at hcontra
        obtain ⟨y, hy, hyeq⟩ := hcontra
        exact hfresh y hy hyeq
      rw [if_neg hcont]
      have hins : sortSide .ask (l ++ [(p, q)]) = insAsc (p, q) l := by
        show sortAsc (l ++ [(p, q)]) = insAsc (p, q) l
        exact sortAsc_append_singleton l (p, q) (hsorted.imp fun hab => le_of_lt hab)
          fun y hy => ne_of_epsEq_false (hfresh y hy)
      rw [hins, if_neg hsan2]
      have hdev2 : passesDeviation (insAsc (p, q) l) p = true := by
        have hnd : ¬ (|p - p| / p > 1 / 2) := by
          rw [sub_self, abs_zero, zero_div]
          norm_num
        cases l with
        | nil => simp [insAsc, passesDeviation, hnd]
        | cons x xs =>
          by_cases hcx : (p, q).1 ≤ x.1
          · simp only [insAsc, if_pos hcx]
            simp [passesDeviation, hnd]
          · simp only [insAsc, if_neg hcx]
            exact hdev
      rw [if_neg (not_not_intro hdev2), if_pos (rfl : ((p, (0 : ℚ)).2 = 0))]
      exact removeFirst_insAsc (p, q) l hfresh
    · rw [if_pos (hdev : ¬ passesDeviation l (p, q).1 = true)]
      rw [if_neg hsan2, if_pos (hdev : ¬ passesDeviation l (p, (0 : ℚ)).1 = true)]

/--
C9 (amended).  For a price p at distance at least 1e-10 from every
resident price of a side (so the diff genuinely inserts a new level),
on a replica whose sides are strictly sorted and strictly shorter than
maxLevels, applying a valid diff inserting (p, q) with q > 0 and then a
valid diff setting (p, 0) restores that side exactly.  Stated for the
bid side and for the ask side.
-/
theorem c9_insert_then_delete_restores (symbol : String) (ob : OrderBook)
    (fc1 fc2 fc3 fc4 : Nat) (p q : ℚ) (now1 now2 now3 now4 : Int)
    (h : ob.needsResync = false) (hq : 0 < q)
    (hbsorted : strictDesc ob.bids)
    (hbfresh : ∀ y ∈ ob.bids, ¬ epsEq y.1 p = true)
    (hblen : ob.bids.length < maxLevels symbol)
    (hasorted : strictAsc ob.asks)
    (hafresh : ∀ y ∈ ob.asks, ¬ epsEq y.1 p = true)
    (halen : ob.asks.length < maxLevels symbol) :
    ((applyUpdate symbol .spot
        (applyUpdate symbol .spot ob fc1
          { U := ob.lastUpdateId + 1, u := ob.lastUpdateId + 1, pu := none,
            b := [(p, q)], a := [] } now1).2.1 fc2
        { U := ob.lastUpdateId + 2, u := ob.lastUpdateId + 2, pu := none,
          b := [(p, 0)], a := [] } now2).2.1).bids = ob.bids ∧
    ((applyUpdate symbol .spot
        (applyUpdate symbol .spot ob fc3
          { U := ob.lastUpdateId + 1, u := ob.lastUpdateId + 1, pu := none,
            b := [], a := [(p, q)] } now3).2.1 fc4
        { U := ob.lastUpdateId + 2, u := ob.lastUpdateId + 2, pu := none,
          b := [], a := [(p, 0)] } now4).2.1).asks = ob.asks := by
  constructor
  · rw [applyUpdate_spot_applied symbol ob fc1 _ now1 h
      (show ob.lastUpdateId < ob.lastUpdateId + 1 by omega)
      (show ob.lastUpdateId + 1 ≤ ob.lastUpdateId + 1 from le_refl _)]
    show ((applyUpdate symbol .spot
        (applyBody symbol ob
          { U := ob.lastUpdateId + 1, u := ob.lastUpdateId + 1, pu := none,
            b := [(p, q)], a := [] } now1) fc2
        { U := ob.lastUpdateId + 2, u := ob.lastUpdateId + 2, pu := none,
          b := [(p, 0)], a := [] } now2).2.1).bids = ob.bids
    have hns1 : (applyBody symbol ob
        { U := ob.lastUpdateId + 1, u := ob.lastUpdateId + 1, pu := none,
          b := [(p, q)], a := [] } now1).needsResync = false := h
    have hid1 : (applyBody symbol ob
        { U := ob.lastUpdateId + 1, u := ob.lastUpdateId + 1, pu := none,
          b := [(p, q)], a := [] } now1).lastUpdateId = ob.lastUpdateId + 1 := rfl
    rw [applyUpdate_spot_applied symbol _ fc2 _ now2 hns1
      (show (applyBody symbol ob
          { U := ob.lastUpdateId + 1, u := ob.lastUpdateId + 1, pu := none,
            b := [(p, q)], a := [] } now1).lastUpdateId < ob.lastUpdateId + 2 by
        rw [hid1]; omega)
      (show ob.lastUpdateId + 2 ≤ (applyBody symbol ob
          { U := ob.lastUpdateId + 1, u := ob.lastUpdateId + 1, pu := none,
            b := [(p, q)], a := [] } now1).lastUpdateId + 1 by rw [hid1]; omega)]
    show (applyBody symbol
        (applyBody symbol ob
          { U := ob.lastUpdateId + 1, u := ob.lastUpdateId + 1, pu := none,
            b := [(p, q)], a := [] } now1)
        { U := ob.lastUpdateId + 2, u := ob.lastUpdateId + 2, pu := none,
          b := [(p, 0)], a := [] } now2).bids = ob.bids
    have hlen1 : (updateSide .bid ob.bids [(p, q)]).length ≤ maxLevels symbol := by
      have hstep : (updateSide .bid ob.bids [(p, q)]).length ≤ ob.bids.length + 1 :=
        applyLevel_length_le .bid ob.bids (p, q)
      omega
    have hbids1 : (applyBody symbol ob
        { U := ob.lastUpdateId + 1, u := ob.lastUpdateId + 1, pu := none,
          b := [(p, q)], a := [] } now1).bids = updateSide .bid ob.bids [(p, q)] := by
      rw [applyBody_eq]
      exact truncSide_eq_of_le symbol _ hlen1
    rw [applyBody_eq]
    show truncSide symbol (updateSide .bid (applyBody symbol ob
        { U := ob.lastUpdateId + 1, u := ob.lastUpdateId + 1, pu := none,
          b := [(p, q)], a := [] } now1).bids [(p, 0)]) = ob.bids
    rw [hbids1, updateSide_insert_remove_bid ob.bids p q hbsorted hbfresh hq]
    exact truncSide_eq_of_le symbol ob.bids (le_of_lt hblen)
  · rw [applyUpdate_spot_applied symbol ob fc3 _ now3 h
      (show ob.lastUpdateId < ob.lastUpdateId + 1 by omega)
      (show ob.lastUpdateId + 1 ≤ ob.lastUpdateId + 1 from le_refl _)]
    show ((applyUpdate symbol .spot
        (applyBody symbol ob
          { U := ob.lastUpdateId + 1, u := ob.lastUpdateId + 1, pu := none,
            b := [], a := [(p, q)] } now3) fc4
        { U := ob.lastUpdateId + 2, u := ob.lastUpdateId + 2, pu := none,
          b := [], a := [(p, 0)] } now4).2.1).asks = ob.asks
    have hns1 : (applyBody symbol ob
        { U := ob.lastUpdateId + 1, u := ob.lastUpdateId + 1, pu := none,
          b := [], a := [(p, q)] } now3).needsResync = false := h
    have hid1 : (applyBody symbol ob
        { U := ob.lastUpdateId + 1, u := ob.lastUpdateId + 1, pu := none,
          b := [], a := [(p, q)] } now3).lastUpdateId = ob.lastUpdateId + 1 := rfl
    rw [applyUpdate_spot_applied symbol _ fc4 _ now4 hns1
      (show (applyBody symbol ob
          { U := ob.lastUpdateId + 1, u := ob.lastUpdateId + 1, pu := none,
            b := [], a := [(p, q)] } now3).lastUpdateId < ob.lastUpdateId + 2 by
        rw [hid1]; omega)
      (show ob.lastUpdateId + 2 ≤ (applyBody symbol ob
          { U := ob.lastUpdateId + 1, u := ob.lastUpdateId + 1, pu := none,
            b := [], a := [(p, q)] } now3).lastUpdateId + 1 by rw [hid1]; omega)]
    show (applyBody symbol
        (applyBody symbol ob
          { U := ob.lastUpdateId + 1, u := ob.lastUpdateId + 1, pu := none,
            b := [], a := [(p, q)] } now3)
        { U := ob.lastUpdateId + 2, u := ob.lastUpdateId + 2, pu := none,
          b := [], a := [(p, 0)] } now4).asks = ob.asks
    have hlen1 : (updateSide .ask ob.asks [(p, q)]).length ≤ maxLevels symbol := by
      have hstep : (updateSide .ask ob.asks [(p, q)]).length ≤ ob.asks.length + 1 :=
        applyLevel_length_le .ask ob.asks (p, q)
      omega
    have hasks1 : (applyBody symbol ob
        { U := ob.lastUpdateId + 1, u := ob.lastUpdateId + 1, pu := none,
          b := [], a := [(p, q)] } now3).asks = updateSide .ask ob.asks [(p, q)] := by
      rw [applyBody_eq]
      exact truncSide_eq_of_le symbol _ hlen1
    rw [applyBody_eq]
    show truncSide symbol (updateSide .ask (applyBody symbol ob
        { U := ob.lastUpdateId + 1, u := ob.lastUpdateId + 1, pu := none,
          b := [], a := [(p, q)] } now3).asks [(p, 0)]) = ob.asks
    rw [hasks1, updateSide_insert_remove_ask ob.asks p q hasorted hafresh hq]
    exact truncSide_eq_of_le symbol ob.asks (le_of_lt halen)

theorem c9_insert_then_delete_restores_witness :
    eob.needsResync = false ∧ (0 : ℚ) < 1 ∧
    strictDesc eob.bids ∧ (∀ y ∈ eob.bids, ¬ epsEq y.1 2 = true) ∧
    eob.bids.length < maxLevels "X" ∧
    strictAsc eob.asks ∧ (∀ y ∈ eob.asks, ¬ epsEq y.1 2 = true) ∧
    eob.asks.length < maxLevels "X" ∧
    (((applyUpdate "X" .spot
        (applyUpdate "X" .spot eob 0
          { U := eob.lastUpdateId + 1, u := eob.lastUpdateId + 1, pu := none,
            b := [(2, 1)], a := [] } 7).2.1 0
        { U := eob.lastUpdateId + 2, u := eob.lastUpdateId + 2, pu := none,
          b := [(2, 0)], a := [] } 8).2.1).bids = eob.bids ∧
     ((applyUpdate "X" .spot
        (applyUpdate "X" .spot eob 0
          { U := eob.lastUpdateId + 1, u := eob.lastUpdateId + 1, pu := none,
            b := [], a := [(2, 1)] } 9).2.1 0
        { U := eob.lastUpdateId + 2, u := eob.lastUpdateId + 2, pu := none,
          b := [], a := [(2, 0)] } 10).2.1).asks = eob.asks) :=
  ⟨rfl, by decide, by decide, by decide, by decide, by decide, by decide, by decide,
   c9_insert_then_delete_restores "X" eob 0 0 0 0 2 1 7 8 9 10
     rfl (by decide) (by decide) (by decide) (by decide) (by decide) (by decide) (by decide)⟩

/--
C9 (counterexample).  Price c9p = 1 + 1e-11 is not present on the bid
side [(1, 5)], yet applying the diff (c9p, 3) followed by (c9p, 0) does
not restore the side: the 1e-10 tolerance makes the first diff OVERWRITE
the resident level at price 1 and the second diff DELETE it, leaving an
empty side instead of [(1, 5)].
-/
theorem c9_counterexample :
    (∀ y ∈ c9ob.bids, y.1 ≠ c9p) ∧ (0 : ℚ) < 3 ∧
    ((applyUpdate "X" .spot (applyUpdate "X" .spot c9ob 0 c9upd1 5).2.1 0 c9upd2 6).2.1).bids
      ≠ c9ob.bids := by
  have hppos : (0 : ℚ) < c9p := by norm_num [c9p]
  have he : epsEq 1 c9p = true := by
    simp only [epsEq, c9p, eps, decide_eq_true_eq]
    rw [show (1 : ℚ) - (1 + 1 / 10 ^ 11) = -(1 / 10 ^ 11) by ring, abs_neg,
      abs_of_pos (by norm_num : (0 : ℚ) < 1 / 10 ^ 11)]
    norm_num
  have habs : |c9p - 1| = 1 / 10 ^ 11 := by
    rw [show c9p - 1 = 1 / 10 ^ 11 from by norm_num [c9p]]
    exact abs_of_pos (by norm_num)
  have hweak : ¬ ((1 : ℚ) / 10 ^ 11 / 1 > 1 / 2) := by norm_num
  have hsan1 : ¬ ((c9p, (3 : ℚ)).1 ≤ 0 ∨ ((3 : ℚ)) < 0) := by
    push_neg
    exact ⟨hppos, by norm_num⟩
  have hsan2 : ¬ ((c9p, (0 : ℚ)).1 ≤ 0 ∨ ((0 : ℚ)) < 0) := by
    push_neg
    exact ⟨hppos, le_refl 0⟩
  have hdev1 : passesDeviation [((1 : ℚ), (5 : ℚ))] c9p = true := by
    show (!(decide (|c9p - 1| / 1 > 1 / 2))) = true
    rw [habs, decide_eq_false hweak]
    rfl
  have hdev2 : passesDeviation [((1 : ℚ), (3 : ℚ))] c9p = true := by
    show (!(decide (|c9p - 1| / 1 > 1 / 2))) = true
    rw [habs, decide_eq_false hweak]
    rfl
  have hcont : containsEps c9p [((1 : ℚ), (5 : ℚ))] = true := by
    simp [containsEps, he]
  have hstep1 : updateSide .bid c9ob.bids c9upd1.b = [(1, 3)] := by
    show applyLevel .bid [((1 : ℚ), (5 : ℚ))] (c9p, 3) = [(1, 3)]
    unfold applyLevel
    rw [if_neg hsan1, if_neg (not_not_intro hdev1),
      if_neg (by norm_num : ((c9p, (3 : ℚ)).2 : ℚ) ≠ 0), if_pos hcont]
    simp [setFirst, he]
  have hstep2 : updateSide .bid [((1 : ℚ), (3 : ℚ))] c9upd2.b = [] := by
    show applyLevel .bid [((1 : ℚ), (3 : ℚ))] (c9p, 0) = []
    unfold applyLevel
    rw [if_neg hsan2, if_neg (not_not_intro hdev2), if_pos (rfl : ((c9p, (0 : ℚ)).2 = 0))]
    simp [removeFirst, he]
  have hbids1 : (applyBody "X" c9ob c9upd1 5).bids = [((1 : ℚ), (3 : ℚ))] := by
    rw [applyBody_eq]
    show truncSide "X" (updateSide .bid c9ob.bids c9upd1.b) = [(1, 3)]
    rw [hstep1]
    rfl
  have hfinal : ((applyUpdate "X" .spot
      (applyUpdate "X" .spot c9ob 0 c9upd1 5).2.1 0 c9upd2 6).2.1).bids = [] := by
    rw [applyUpdate_spot_applied "X" c9ob 0 c9upd1 5 rfl (by decide) (by decide)]
    show ((applyUpdate "X" .spot (applyBody "X" c9ob c9upd1 5) 0 c9upd2 6).2.1).bids = []
    rw [applyUpdate_spot_applied "X" (applyBody "X" c9ob c9upd1 5) 0 c9upd2 6 rfl
      (show (applyBody "X" c9ob c9upd1 5).lastUpdateId < c9upd2.u from by decide)
      (show c9upd2.U ≤ (applyBody "X" c9ob c9upd1 5).lastUpdateId + 1 from by decide)]
    show (applyBody "X" (applyBody "X" c9ob c9upd1 5) c9upd2 6).bids = []
    rw [applyBody_eq]
    show truncSide "X" (updateSide .bid (applyBody "X" c9ob c9upd1 5).bids c9upd2.b) = []
    rw [hbids1, hstep2]
    rfl
  refine ⟨?_, by norm_num, ?_⟩
  · intro y hy
    have hy1 : y = ((1 : ℚ), (5 : ℚ)) := by simpa [c9ob] using hy
    rw [hy1]
    norm_num [c9p]
  · rw [hfinal]
    simp [c9ob]

/-! ### Zombie guard (claim C6) -/

/-- The age check `(now - ts) / 1000 > 120` in integer form. -/
theorem age_gt_iff (d : Int) : ((d : ℚ) / 1000 > 120) ↔ (120000 : ℤ) < d := by
  rw [gt_iff_lt, lt_div_iff₀ (by norm_num : (0 : ℚ) < 1000)]
  constructor
  · intro hh
    have h2 : (120000 : ℚ) < (d : ℚ) := by linarith
    exact_mod_cast h2
  · intro hh
    have h2 : (120000 : ℚ) < (d : ℚ) := by exact_mod_cast hh
    linarith

/--
C6.  getOrderBook returns null when the replica is flagged needsResync
or older than 120 seconds, and the post-apply Redis persistence step is
skipped for a replica older than 120 seconds at write time.
-/
theorem c6_zombie_guard (ob : OrderBook) (now now2 : Int) :
    (ob.needsResync = true ∨ 120000 < now - ob.timestamp →
      getOrderBook (some ob) now = none) ∧
    (120000 < now2 - ob.timestamp → performsUpdateSave ob now2 = false) := by
  have hget : getOrderBook (some ob) now =
      (if ob.needsResync = true then none
       else if ((now - ob.timestamp : ℤ) : ℚ) / 1000 > 120 then none else some ob) := rfl
  constructor
  · rintro (hr | hage)
    · rw [hget, if_pos hr]
    · rw [hget]
      by_cases hr : ob.needsResync = true
      · rw [if_pos hr]
      · rw [if_neg hr, if_pos ((age_gt_iff (now - ob.timestamp)).mpr hage)]
  · intro hage
    have hcond : ((now2 : ℚ) - (ob.timestamp : ℚ)) / 1000 > 120 := by
      have h0 : ((now2 - ob.timestamp : ℤ) : ℚ) / 1000 > 120 :=
        (age_gt_iff (now2 - ob.timestamp)).mpr hage
      push_cast at h0
      exact h0
    simp only [performsUpdateSave]
    simp
    intro _
    exact hcond

theorem c6_zombie_guard_witness :
    (wob.needsResync = true ∨ (120000 : Int) < 200000 - wob.timestamp) ∧
    getOrderBook (some wob) 200000 = none ∧
    performsUpdateSave wob 200000 = false :=
  ⟨Or.inr (by decide),
   (c6_zombie_guard wob 200000 200000).1 (Or.inr (by decide)),
   (c6_zombie_guard wob 200000 200000).2 (by decide)⟩

/-! ### Slippage (claim C7) -/

theorem sumQuoted_cons (x : Level) (rest : List Level) :
    sumQuoted (x :: rest) = x.1 * x.2 + sumQuoted rest := by
  simp [sumQuoted]

theorem sumQuoted_nonneg (orders : List Level)
    (hvalid : ∀ l ∈ orders, 0 < l.1 ∧ 0 < l.2) : 0 ≤ sumQuoted orders := by
  induction orders with
  | nil => simp [sumQuoted]
  | cons x rest ih =>
    have hx := hvalid x (List.mem_cons_self x rest)
    have hrest := ih fun l hl => hvalid l (List.mem_cons_of_mem x hl)
    have hxpos : 0 ≤ x.1 * x.2 := le_of_lt (mul_pos hx.1 hx.2)
    rw [sumQuoted_cons]
    linarith

/-- The walk leaves a positive remainder exactly when the total quoted
value of the side cannot cover the notional. -/
theorem slipWalk_rem_pos_iff (orders : List Level) :
    ∀ (r c t : ℚ), (∀ l ∈ orders, 0 < l.1 ∧ 0 < l.2) → 0 < r →
      (0 < (slipWalk r c t orders).1 ↔ sumQuoted orders < r) := by
  induction orders with
  | nil =>
    intro r c t _ _
    show 0 < r ↔ sumQuoted [] < r
    rw [show sumQuoted ([] : List Level) = 0 from rfl]
  | cons x rest ih =>
    intro r c t hvalid hr
    obtain ⟨hp, hq⟩ := hvalid x (List.mem_cons_self x rest)
    have hvr : ∀ l ∈ rest, 0 < l.1 ∧ 0 < l.2 := fun l hl => hvalid l (List.mem_cons_of_mem x hl)
    rcases x with ⟨p, q⟩
    rw [sumQuoted_cons]
    show (0 < (slipWalk r c t ((p, q) :: rest)).1 ↔ p * q + sumQuoted rest < r)
    simp only [slipWalk]
    rw [if_pos ⟨hp, hq⟩]
    by_cases hcase : r ≤ p * q
    · rw [if_pos hcase]
      have hsum : 0 ≤ sumQuoted rest := sumQuoted_nonneg rest hvr
      constructor
      · intro habs
        simp at habs
      · intro hlt
        exfalso
        linarith
    · rw [if_neg hcase]
      have hlt : p * q < r := not_le.mp hcase
      have hr2 : 0 < r - p * q := by linarith
      rw [ih (r - p * q) (c + p * q) (t + q) hvr hr2]
      constructor
      · intro hh
        linarith
      · intro hh
        linarith

/--
C7.  calculateSlippage walks the levels consuming quoted value until the
notional N is met: it returns the sentinel 999 exactly when the side is
empty or its total quoted value is below N, and otherwise returns
((weightedAvgPrice - bestPrice) / bestPrice) * 100, where the weighted
average comes from the walk and bestPrice is the first level price.
-/
theorem c7_slippage_sentinel_and_formula (orders : List Level) (N : ℚ)
    (hvalid : ∀ l ∈ orders, 0 < l.1 ∧ 0 < l.2) (hN : 0 < N) :
    (orders = [] ∨ sumQuoted orders < N → calculateSlippage orders N = 999) ∧
    (orders ≠ [] → N ≤ sumQuoted orders →
      calculateSlippage orders N =
        (((slipWalk N 0 0 orders).2.1 / (slipWalk N 0 0 orders).2.2 - orders.headI.1) /
          orders.headI.1) * 100) := by
  constructor
  · rintro (rfl | hlt)
    · rfl
    · cases orders with
      | nil => rfl
      | cons f rest =>
        show (if 0 < (slipWalk N 0 0 (f :: rest)).1 then (999 : ℚ) else
            (((slipWalk N 0 0 (f :: rest)).2.1 / (slipWalk N 0 0 (f :: rest)).2.2 - f.1) /
              f.1) * 100) = 999
        rw [if_pos ((slipWalk_rem_pos_iff (f :: rest) N 0 0 hvalid hN).mpr hlt)]
  · intro hne hge
    cases orders with
    | nil => exact absurd rfl hne
    | cons f rest =>
      have hnot : ¬ (0 < (slipWalk N 0 0 (f :: rest)).1) := by
        rw [slipWalk_rem_pos_iff (f :: rest) N 0 0 hvalid hN]
        exact not_lt.mpr hge
      show (if 0 < (slipWalk N 0 0 (f :: rest)).1 then (999 : ℚ) else
          (((slipWalk N 0 0 (f :: rest)).2.1 / (slipWalk N 0 0 (f :: rest)).2.2 - f.1) /
            f.1) * 100) =
        (((slipWalk N 0 0 (f :: rest)).2.1 / (slipWalk N 0 0 (f :: rest)).2.2 -
            (f :: rest).headI.1) / (f :: rest).headI.1) * 100
      rw [if_neg hnot]
      rfl

theorem c7_slippage_sentinel_and_formula_witness :
    (∀ l ∈ [((10 : ℚ), (5 : ℚ))], 0 < l.1 ∧ 0 < l.2) ∧ (0 : ℚ) < 100 ∧
    ((([((10 : ℚ), (5 : ℚ))] : List Level) = [] ∨ sumQuoted [((10 : ℚ), (5 : ℚ))] < 100 →
       calculateSlippage [((10 : ℚ), (5 : ℚ))] 100 = 999) ∧
     (([((10 : ℚ), (5 : ℚ))] : List Level) ≠ [] →
       (100 : ℚ) ≤ sumQuoted [((10 : ℚ), (5 : ℚ))] →
       calculateSlippage [((10 : ℚ), (5 : ℚ))] 100 =
         (((slipWalk 100 0 0 [((10 : ℚ), (5 : ℚ))]).2.1 /
             (slipWalk 100 0 0 [((10 : ℚ), (5 : ℚ))]).2.2 -
             ([((10 : ℚ), (5 : ℚ))] : List Level).headI.1) /
           ([((10 : ℚ), (5 : ℚ))] : List Level).headI.1) * 100)) :=
  ⟨by decide, by decide,
   c7_slippage_sentinel_and_formula [((10 : ℚ), (5 : ℚ))] 100 (by decide) (by decide)⟩

/-! ### Time-series cadence (claim C8) -/

/--
C8 (counterexample).  The very first save for a key performs the core
write, but the advanced write of the same call rejects, so the catch
block skips `lastSaveTime.set` and the fresh timestamp object is lost.
The next call 1000 ms later performs another core write: two successive
core writes separated by less than coreSaveIntervalMs.
-/
theorem c8_counterexample :
    (saveTimeSeriesIfNeeded none 1000000 30000 30000 true false).coreWritten = true ∧
    (saveTimeSeriesIfNeeded
       (saveTimeSeriesIfNeeded none 1000000 30000 30000 true false).state
       1001000 30000 30000 true true).coreWritten = true ∧
    (1001000 - 1000000 : Int) < 30000 := by
  decide

/--
C8 (amended).  When the underlying store writes succeed, between two
successive core time-series writes for one key at least coreInterval
milliseconds elapse.
-/
theorem c8_cadence_bound (st : Option (Int × Int)) (t1 t2 coreI advI : Int)
    (h1 : (saveTimeSeriesIfNeeded st t1 coreI advI true true).coreWritten = true)
    (h2 : (saveTimeSeriesIfNeeded
            (saveTimeSeriesIfNeeded st t1 coreI advI true true).state
            t2 coreI advI true true).coreWritten = true) :
    coreI ≤ t2 - t1 := by
  have e1 : ∀ (s : Option (Int × Int)) (now : Int),
      saveTimeSeriesIfNeeded s now coreI advI true true =
        { coreWritten := decide (now - (s.getD (0, 0)).1 ≥ coreI),
          advWritten := decide (now - (s.getD (0, 0)).2 ≥ advI),
          state := some ((if now - (s.getD (0, 0)).1 ≥ coreI then now else (s.getD (0, 0)).1),
                         (if now - (s.getD (0, 0)).2 ≥ advI then now else (s.getD (0, 0)).2)) } := by
    intro s now
    unfold saveTimeSeriesIfNeeded
    rw [if_neg (by simp), if_neg (by simp)]
  rw [e1 st t1] at h1 h2
  rw [e1] at h2
  simp only [Option.getD_some, decide_eq_true_eq, ge_iff_le] at h1 h2
  rw [if_pos h1] at h2
  omega

theorem c8_cadence_bound_witness :
    (saveTimeSeriesIfNeeded none 30000 30000 30000 true true).coreWritten = true ∧
    (saveTimeSeriesIfNeeded (saveTimeSeriesIfNeeded none 30000 30000 30000 true true).state
       60000 30000 30000 true true).coreWritten = true ∧
    (30000 : Int) ≤ 60000 - 30000 :=
  ⟨by decide, by decide, c8_cadence_bound none 30000 60000 30000 30000 (by decide) (by decide)⟩

end BLM
